import Mathlib

/-!
Verification development for the fastcollection shared-memory container
library (C++ sources under src/src/main/cpp).  The C++ code is shallowly
embedded: byte strings become `List Nat` (each element a byte value),
machine counters become `Nat` with explicit wrap-around modulo 2^32 or 2^64
where the source uses `uint32_t`/`uint64_t`/`size_t` arithmetic, the
wall clock `current_timestamp_ns()` becomes an explicit `now : Nat`
parameter threaded through every operation, and the offset-based
doubly-linked chains become Lean lists (head first), which is faithful for
the sequential (lock-held) executions all the claims below quantify over.
Null pointers passed for payloads become `Option (List Nat)` with `none`
for a null pointer.
-/

namespace FastCollection

/-- `2^32`, the modulus of `uint32_t` arithmetic. -/
def U32 : Nat := 4294967296

/-- `2^64`, the modulus of `uint64_t` / `size_t` arithmetic. -/
def U64 : Nat := 18446744073709551616

/-- Wrap a `uint32_t` value. -/
def wrap32 (n : Nat) : Nat := n % U32

/-- Wrap a `uint64_t` / `size_t` value. -/
def wrap64 (n : Nat) : Nat := n % U64

/-- `n - 1` in `uint64_t` arithmetic (`fetch_sub(1)` on a `uint64_t`,
or `size_t` decrement), wrapping around at zero. -/
def sub64one (n : Nat) : Nat := (n + (U64 - 1)) % U64

/-- `n - 1` in `uint32_t` arithmetic (`fetch_sub(1)` on the
`uint32_t` bucket counter). -/
def sub32one (n : Nat) : Nat := (n + (U32 - 1)) % U32

/-- `compute_hash` from fc_common.h: FNV-1a over the bytes, in
`uint32_t` arithmetic (`hash ^= data[i]; hash *= 16777619u`). -/
def compute_hash (data : List Nat) : Nat :=
  data.foldl (fun h b => ((h ^^^ b) * 16777619) % U32) 2166136261

/-- `TTL_INFINITE` from fc_common.h. -/
def TTL_INFINITE : Int := -1

/-- `DEFAULT_GROWTH_SIZE` from fc_common.h (16 MiB). -/
def DEFAULT_GROWTH_SIZE : Nat := 16777216

/-- `ShmEntry::STATE_EMPTY`. -/
def STATE_EMPTY : Nat := 0
/-- `ShmEntry::STATE_WRITING`. -/
def STATE_WRITING : Nat := 1
/-- `ShmEntry::STATE_VALID`. -/
def STATE_VALID : Nat := 2
/-- `ShmEntry::STATE_DELETED`. -/
def STATE_DELETED : Nat := 3
/-- `ShmEntry::STATE_EXPIRED`. -/
def STATE_EXPIRED : Nat := 4

/-- The entry header `ShmEntry` from fc_serialization.h.  The atomic
`state` is a plain `Nat` here (sequential model). -/
structure ShmEntry where
  state : Nat
  data_size : Nat
  hash_code : Nat
  ttl_seconds : Int
  created_at : Nat
  expires_at : Nat
  version : Nat
deriving Repr, DecidableEq

/-- `ShmEntry()` default constructor. -/
def ShmEntry.fresh : ShmEntry :=
  { state := STATE_EMPTY, data_size := 0, hash_code := 0,
    ttl_seconds := TTL_INFINITE, created_at := 0, expires_at := 0, version := 0 }

/-- `ShmEntry::mark_valid`. -/
def ShmEntry.mark_valid (e : ShmEntry) : ShmEntry := { e with state := STATE_VALID }

/-- `ShmEntry::mark_deleted`. -/
def ShmEntry.mark_deleted (e : ShmEntry) : ShmEntry := { e with state := STATE_DELETED }

/-- `ShmEntry::is_valid`. -/
def ShmEntry.is_valid (e : ShmEntry) : Bool := e.state == STATE_VALID

/-- `ShmEntry::is_expired`, with `current_timestamp_ns()` passed as `now`. -/
def ShmEntry.is_expired (e : ShmEntry) (now : Nat) : Bool :=
  if e.state == STATE_EXPIRED then true
  else if e.state != STATE_VALID then false
  else if e.expires_at == 0 then false
  else decide (e.expires_at ≤ now)

/-- `ShmEntry::is_alive`, with `current_timestamp_ns()` passed as `now`. -/
def ShmEntry.is_alive (e : ShmEntry) (now : Nat) : Bool :=
  if !e.is_valid then false
  else if e.expires_at == 0 then true
  else decide (now < e.expires_at)

/-- `ShmEntry::set_ttl`: rebases `created_at` to `now` and computes
`expires_at` (`0` means never; otherwise `created_at + ttl * 10^9`,
the C++ cast of a non-negative `int32_t` to `uint64_t`). -/
def ShmEntry.set_ttl (e : ShmEntry) (ttl : Int) (now : Nat) : ShmEntry :=
  { e with ttl_seconds := ttl, created_at := now,
           expires_at := if ttl < 0 then 0 else wrap64 (now + ttl.toNat * 1000000000) }

/-- `ShmEntry::remaining_ttl_seconds`. -/
def ShmEntry.remaining_ttl_seconds (e : ShmEntry) (now : Nat) : Int :=
  if e.ttl_seconds < 0 then -1
  else if e.expires_at == 0 then -1
  else if decide (e.expires_at ≤ now) then 0
  else Int.ofNat ((e.expires_at - now) / 1000000000)

/-- `ShmNode` from fc_serialization.h: an entry header plus the inline
payload bytes.  The `next_offset`/`prev_offset` links are represented by
the position of the node in the containing chain list. -/
structure ShmNode where
  entry : ShmEntry
  data : List Nat
deriving Repr, DecidableEq

/-- `SerializationUtil::copy_to_node` applied to a freshly
placement-constructed node: sets `data_size`, `hash_code`, TTL, copies the
payload and marks the entry valid. -/
def copy_to_node (data : List Nat) (ttl : Int) (now : Nat) : ShmNode :=
  { entry := (({ ShmEntry.fresh with
                   data_size := data.length,
                   hash_code := compute_hash data }).set_ttl ttl now).mark_valid,
    data := data }

/-- `SerializationUtil::copy_from_node`: returns the payload bytes, or an
empty vector when the entry is not alive. -/
def copy_from_node (n : ShmNode) (now : Nat) : List Nat :=
  if n.entry.is_alive now then n.data else []

/-- `ShmKeyValue` from fc_serialization.h: entry header, chain links
(represented by list position), then key bytes and value bytes
(`key_size`/`value_size` are the lengths of the two lists). -/
structure ShmKeyValue where
  entry : ShmEntry
  key : List Nat
  value : List Nat
deriving Repr, DecidableEq

/-- `SerializationUtil::copy_to_kv` applied to a fresh record: sizes, the
hash of the key, TTL, both byte strings, then `mark_valid`. -/
def copy_to_kv (key value : List Nat) (ttl : Int) (now : Nat) : ShmKeyValue :=
  { entry := (({ ShmEntry.fresh with
                   data_size := key.length + value.length,
                   hash_code := compute_hash key }).set_ttl ttl now).mark_valid,
    key := key, value := value }

/-! ## FastList (fc_list.cpp)

The list header's `head_offset`/`tail_offset` and the node links are
represented by a single list `chain` in head-to-tail order; `hsize` is the
header's stored `size` counter (a `uint64_t` the code increments on every
link and decrements on every unlink).  The single-threaded sequential
access cache is invalidated at construction and on every structural
mutation; the traversals below model the cache-miss path. -/

/-- The persistent state of a `FastList` relevant to its algorithms. -/
structure FastListState where
  chain : List ShmNode
  hsize : Nat
deriving Repr, DecidableEq

/-- Head half of `FastList::node_at_index`: walk head→tail counting alive
nodes in `live` and chain positions in `pos`; return the chain position of
the node whose alive-index equals `idx`. -/
def natHeadAux : List ShmNode → Nat → Nat → Nat → Nat → Option Nat
  | [], _, _, _, _ => none
  | n :: rest, now, idx, live, pos =>
    if n.entry.is_alive now then
      if live == idx then some pos
      else natHeadAux rest now idx (live + 1) (pos + 1)
    else natHeadAux rest now idx live (pos + 1)

/-- Tail half of `FastList::node_at_index`: walk tail→head (the input is
the reversed chain), decrementing the `size_t` counter `live` (which
starts at `list_size - 1` in wrapping arithmetic) at each alive node;
return the position from the tail end. -/
def natTailAux : List ShmNode → Nat → Nat → Nat → Nat → Option Nat
  | [], _, _, _, _ => none
  | n :: rest, now, idx, live, pos =>
    if n.entry.is_alive now then
      if live == idx then some pos
      else natTailAux rest now idx (sub64one live) (pos + 1)
    else natTailAux rest now idx live (pos + 1)

/-- `FastList::node_at_index` (cache-miss path): traverse from the optimal
end as chosen by `index < list_size / 2`, where `list_size` is the
header's stored size.  Returns the chain position of the found node. -/
def FastList.node_at_index (s : FastListState) (now idx : Nat) : Option Nat :=
  if idx < s.hsize / 2 then
    natHeadAux s.chain now idx 0 0
  else
    match natTailAux s.chain.reverse now idx (sub64one s.hsize) 0 with
    | some k => some (s.chain.length - 1 - k)
    | none => none

/-- `FastList::add(data, size, ttl)`: append at the tail.  `data = none`
models a null pointer; an empty list models `size == 0`. -/
def FastList.add (s : FastListState) (data : Option (List Nat)) (ttl : Int) (now : Nat) :
    Bool × FastListState :=
  match data with
  | none => (false, s)
  | some bs =>
    if bs.length == 0 then (false, s)
    else (true, ⟨s.chain ++ [copy_to_node bs ttl now], wrap64 (s.hsize + 1)⟩)

/-- `FastList::addFirst`: prepend at the head. -/
def FastList.addFirst (s : FastListState) (data : Option (List Nat)) (ttl : Int) (now : Nat) :
    Bool × FastListState :=
  match data with
  | none => (false, s)
  | some bs =>
    if bs.length == 0 then (false, s)
    else (true, ⟨copy_to_node bs ttl now :: s.chain, wrap64 (s.hsize + 1)⟩)

/-- `FastList::add(index, data, size, ttl)`: positional insertion.  Fails
when `index` exceeds the header's stored size; at `index == size` it
delegates to `add`, at `index == 0` to `addFirst`; otherwise it inserts
before the node found by `node_at_index`. -/
def FastList.addAt (s : FastListState) (idx : Nat) (data : Option (List Nat)) (ttl : Int)
    (now : Nat) : Bool × FastListState :=
  match data with
  | none => (false, s)
  | some bs =>
    if bs.length == 0 then (false, s)
    else if decide (idx > s.hsize) then (false, s)
    else if idx == s.hsize then FastList.add s (some bs) ttl now
    else if idx == 0 then FastList.addFirst s (some bs) ttl now
    else
      match FastList.node_at_index s now idx with
      | none => (false, s)
      | some pos =>
        (true, ⟨s.chain.take pos ++ copy_to_node bs ttl now :: s.chain.drop pos,
                wrap64 (s.hsize + 1)⟩)

/-- The alive-node counting loop shared verbatim by `FastList::size`,
`FastQueue::size` and `FastStack::size` (walk the chain, `alive++` on each
alive node). -/
def chainAliveCount : List ShmNode → Nat → Nat
  | [], _ => 0
  | n :: rest, now =>
    (if n.entry.is_alive now then 1 else 0) + chainAliveCount rest now

/-- The enumeration performed by `FastList::forEach` / `FastQueue::forEach`
/ `FastStack::forEach` with a callback that always returns `true`: the
payloads of the alive nodes, in chain order. -/
def chainAliveRecords : List ShmNode → Nat → List (List Nat)
  | [], _ => []
  | n :: rest, now =>
    if n.entry.is_alive now then n.data :: chainAliveRecords rest now
    else chainAliveRecords rest now

/-- `FastList::size`: recount alive nodes over the whole chain. -/
def FastList.size (s : FastListState) (now : Nat) : Nat :=
  chainAliveCount s.chain now

/-- `FastList::forEach` (callback always continuing), as the list of
enumerated payloads. -/
def FastList.forEachRecords (s : FastListState) (now : Nat) : List (List Nat) :=
  chainAliveRecords s.chain now

/-! ## FastQueue (fc_queue.cpp)

The deque header's `front_offset`/`back_offset` plus the node links are a
list `chain` in front-to-back order; `hsize` is the header's `uint64_t`
size counter. -/

/-- The persistent state of a `FastQueue`. -/
structure FastQueueState where
  chain : List ShmNode
  hsize : Nat
deriving Repr, DecidableEq

/-- The loop body of `FastQueue::skip_expired_front` on chain and size:
while the front node is expired, unlink it (its storage is returned to
the heap, modelled by dropping it from the chain) and decrement the
header size. -/
def skipExpiredAux : List ShmNode → Nat → Nat → List ShmNode × Nat
  | [], hsize, _ => ([], hsize)
  | n :: rest, hsize, now =>
    if n.entry.is_expired now then skipExpiredAux rest (sub64one hsize) now
    else (n :: rest, hsize)

/-- `FastQueue::skip_expired_front` (called with the collection lock
held). -/
def FastQueue.skip_expired_front (q : FastQueueState) (now : Nat) : FastQueueState :=
  let r := skipExpiredAux q.chain q.hsize now
  ⟨r.1, r.2⟩

/-- `FastQueue::poll`: skip the expired front, then remove and return the
front payload.  The second component is the value written to `out_data`
(`none` when `poll` returns `false` and leaves it untouched). -/
def FastQueue.poll (q : FastQueueState) (now : Nat) :
    Bool × Option (List Nat) × FastQueueState :=
  let q1 := FastQueue.skip_expired_front q now
  match q1.chain with
  | [] => (false, none, q1)
  | n :: rest =>
    if n.entry.is_alive now then
      (true, some (copy_from_node n now), ⟨rest, sub64one q1.hsize⟩)
    else (false, none, q1)

/-- `FastQueue::peek`: skip the expired front (mutating the queue), then
return the front payload without unlinking it. -/
def FastQueue.peek (q : FastQueueState) (now : Nat) :
    Bool × Option (List Nat) × FastQueueState :=
  let q1 := FastQueue.skip_expired_front q now
  match q1.chain with
  | [] => (false, none, q1)
  | n :: _ =>
    if n.entry.is_alive now then (true, some (copy_from_node n now), q1)
    else (false, none, q1)

/-- `FastQueue::offer`: append at the back. -/
def FastQueue.offer (q : FastQueueState) (data : Option (List Nat)) (ttl : Int) (now : Nat) :
    Bool × FastQueueState :=
  match data with
  | none => (false, q)
  | some bs =>
    if bs.length == 0 then (false, q)
    else (true, ⟨q.chain ++ [copy_to_node bs ttl now], wrap64 (q.hsize + 1)⟩)

/-- `FastQueue::offerFirst`: prepend at the front. -/
def FastQueue.offerFirst (q : FastQueueState) (data : Option (List Nat)) (ttl : Int)
    (now : Nat) : Bool × FastQueueState :=
  match data with
  | none => (false, q)
  | some bs =>
    if bs.length == 0 then (false, q)
    else (true, ⟨copy_to_node bs ttl now :: q.chain, wrap64 (q.hsize + 1)⟩)

/-- `FastQueue::size`: recount alive nodes front to back. -/
def FastQueue.size (q : FastQueueState) (now : Nat) : Nat :=
  chainAliveCount q.chain now

/-- `FastQueue::forEach` (callback always continuing). -/
def FastQueue.forEachRecords (q : FastQueueState) (now : Nat) : List (List Nat) :=
  chainAliveRecords q.chain now

/-! ## FastStack (fc_stack.cpp)

The chain is top-first under the deque header's `front_offset`; `abaTag`
is the named `stack_aba_tag` counter.  The CAS push loop is modelled by
its sequential effect. -/

/-- The persistent state of a `FastStack`. -/
structure FastStackState where
  chain : List ShmNode
  hsize : Nat
  abaTag : Nat
deriving Repr, DecidableEq

/-- `FastStack::push`: link the new node at the top, bump the ABA tag and
the size. -/
def FastStack.push (st : FastStackState) (data : Option (List Nat)) (ttl : Int) (now : Nat) :
    Bool × FastStackState :=
  match data with
  | none => (false, st)
  | some bs =>
    if bs.length == 0 then (false, st)
    else (true, ⟨copy_to_node bs ttl now :: st.chain,
                 wrap64 (st.hsize + 1), wrap64 (st.abaTag + 1)⟩)

/-- `FastStack::size`: recount alive nodes from the top. -/
def FastStack.size (st : FastStackState) (now : Nat) : Nat :=
  chainAliveCount st.chain now

/-- `FastStack::forEach` (callback always continuing). -/
def FastStack.forEachRecords (st : FastStackState) (now : Nat) : List (List Nat) :=
  chainAliveRecords st.chain now

/-! ## FastSet (fc_set.cpp)

`add`, `remove`, `contains`, `getTTL` each operate on the single bucket
chain selected by `hash & (bucket_count - 1)` (under that bucket's mutex
for writers).  A bucket chain is a list in head-first order; alongside it
we track the bucket's `uint32_t` `size` counter and the header's
`uint64_t` `size` counter, the two counters the operations touch. -/

/-- The state of one `FastSet` bucket together with the header size:
everything `FastSet::add` reads or writes. -/
structure FastSetState where
  chain : List ShmNode
  bucketSize : Nat
  hsize : Nat
deriving Repr, DecidableEq

/-- The loop of `FastSet::find_in_bucket`: first node that is alive and
matches hash, size and bytes; returns its chain position and the node. -/
def setFindAux : List ShmNode → List Nat → Nat → Nat → Nat → Option (Nat × ShmNode)
  | [], _, _, _, _ => none
  | n :: rest, data, hash, now, pos =>
    if n.entry.is_alive now && n.entry.hash_code == hash &&
       n.entry.data_size == data.length && n.data == data then
      some (pos, n)
    else setFindAux rest data hash now (pos + 1)

/-- `FastSet::find_in_bucket`. -/
def FastSet.find_in_bucket (chain : List ShmNode) (data : List Nat) (now : Nat) :
    Option (Nat × ShmNode) :=
  setFindAux chain data (compute_hash data) now 0

/-- `FastSet::add`: if `find_in_bucket` finds a record it either reports a
duplicate (alive) or updates the found record's TTL in place and
re-marks it valid; otherwise it allocates a new node and splices it at the
head of the bucket chain, bumping both size counters. -/
def FastSet.add (s : FastSetState) (data : Option (List Nat)) (ttl : Int) (now : Nat) :
    Bool × FastSetState :=
  match data with
  | none => (false, s)
  | some bs =>
    if bs.length == 0 then (false, s)
    else
      match FastSet.find_in_bucket s.chain bs now with
      | some (pos, n) =>
        if n.entry.is_alive now then (false, s)
        else
          let n' := { n with entry := (n.entry.set_ttl ttl now).mark_valid }
          (true, { s with chain := s.chain.set pos n' })
      | none =>
        (true, ⟨copy_to_node bs ttl now :: s.chain,
                wrap32 (s.bucketSize + 1), wrap64 (s.hsize + 1)⟩)

/-- The lock-free probe loop of `FastSet::contains` over one bucket
chain. -/
def setContainsChain (chain : List ShmNode) (data : Option (List Nat)) (now : Nat) : Bool :=
  match data with
  | none => false
  | some bs =>
    if bs.length == 0 then false
    else (FastSet.find_in_bucket chain bs now).isSome

/-- The probe loop of `FastSet::getTTL` over one bucket chain: remaining
TTL of the found alive record, `0` when nothing matches. -/
def setGetTTLChain (chain : List ShmNode) (data : Option (List Nat)) (now : Nat) : Int :=
  match data with
  | none => 0
  | some bs =>
    if bs.length == 0 then 0
    else
      match FastSet.find_in_bucket chain bs now with
      | some (_, n) => n.entry.remaining_ttl_seconds now
      | none => 0

/-- `FastSet::size`: the double loop over all bucket chains counting alive
nodes. -/
def FastSet.size : List (List ShmNode) → Nat → Nat
  | [], _ => 0
  | b :: rest, now => chainAliveCount b now + FastSet.size rest now

/-- `FastSet::forEach` over all buckets (callback always continuing). -/
def FastSet.forEachRecords : List (List ShmNode) → Nat → List (List Nat)
  | [], _ => []
  | b :: rest, now => chainAliveRecords b now ++ FastSet.forEachRecords rest now

/-! ## FastMap (fc_map.cpp)

Same per-bucket structure as the set, with `ShmKeyValue` records.  Note
that `FastMap::find_in_bucket` matches on hash, key size and key bytes
only — it does **not** filter on liveness. -/

/-- The state of one `FastMap` bucket together with the header size. -/
structure FastMapState where
  chain : List ShmKeyValue
  bucketSize : Nat
  hsize : Nat
deriving Repr, DecidableEq

/-- The loop of `FastMap::find_in_bucket`: first record whose stored hash,
key size and key bytes match — alive or not. -/
def mapFindAux : List ShmKeyValue → List Nat → Nat → Nat → Option (Nat × ShmKeyValue)
  | [], _, _, _ => none
  | kv :: rest, key, hash, pos =>
    if kv.entry.hash_code == hash && kv.key.length == key.length && kv.key == key then
      some (pos, kv)
    else mapFindAux rest key hash (pos + 1)

/-- `FastMap::find_in_bucket`. -/
def FastMap.find_in_bucket (chain : List ShmKeyValue) (key : List Nat) :
    Option (Nat × ShmKeyValue) :=
  mapFindAux chain key (compute_hash key) 0

/-- `FastMap::put`: update the found record in place when the value size
matches (copy the value bytes, rebase the TTL, re-mark valid), replace it
by a freshly built record at the same chain position when the size
differs, or, with no match, splice a new record at the bucket head and
bump both size counters. -/
def FastMap.put (s : FastMapState) (key : Option (List Nat)) (value : List Nat) (ttl : Int)
    (now : Nat) : Bool × FastMapState :=
  match key with
  | none => (false, s)
  | some k =>
    if k.length == 0 then (false, s)
    else
      match FastMap.find_in_bucket s.chain k with
      | some (pos, kv) =>
        if kv.value.length == value.length then
          let kv' := { kv with value := value,
                               entry := (kv.entry.set_ttl ttl now).mark_valid }
          (true, { s with chain := s.chain.set pos kv' })
        else
          (true, { s with chain := s.chain.set pos (copy_to_kv k value ttl now) })
      | none =>
        (true, ⟨copy_to_kv k value ttl now :: s.chain,
                wrap32 (s.bucketSize + 1), wrap64 (s.hsize + 1)⟩)

/-- `FastMap::putIfAbsent`: fail on an alive record for the key; unlink an
expired one first (decrementing both counters) and then, in either
remaining case, splice a fresh record at the bucket head. -/
def FastMap.putIfAbsent (s : FastMapState) (key : Option (List Nat)) (value : List Nat)
    (ttl : Int) (now : Nat) : Bool × FastMapState :=
  match key with
  | none => (false, s)
  | some k =>
    if k.length == 0 then (false, s)
    else
      match FastMap.find_in_bucket s.chain k with
      | some (pos, kv) =>
        if kv.entry.is_alive now then (false, s)
        else
          (true, ⟨copy_to_kv k value ttl now :: s.chain.eraseIdx pos,
                  wrap32 (sub32one s.bucketSize + 1), wrap64 (sub64one s.hsize + 1)⟩)
      | none =>
        (true, ⟨copy_to_kv k value ttl now :: s.chain,
                wrap32 (s.bucketSize + 1), wrap64 (s.hsize + 1)⟩)

/-- The probe loop of `FastMap::get` over one bucket chain: first record
that is alive and matches hash, key size and key bytes; returns its value
bytes (the value written into `out_value`), `none` when `get` returns
`false`. -/
def FastMap.get (chain : List ShmKeyValue) (key : Option (List Nat)) (now : Nat) :
    Option (List Nat) :=
  match key with
  | none => none
  | some k =>
    if k.length == 0 then none
    else
      let hash := compute_hash k
      (chain.find? (fun kv =>
          kv.entry.is_alive now && kv.entry.hash_code == hash &&
          kv.key.length == k.length && kv.key == k)).map (·.value)

/-- `FastMap::remove(key, out_value)`: unconditional removal of the record
found by `find_in_bucket`, whether or not it is alive.  The third
component is the value written into `*out_value` (`none` when the out
pointer is left untouched); `wantOut` models a non-null out pointer. -/
def FastMap.remove (s : FastMapState) (key : Option (List Nat)) (wantOut : Bool)
    (now : Nat) : Bool × FastMapState × Option (List Nat) :=
  match key with
  | none => (false, s, none)
  | some k =>
    if k.length == 0 then (false, s, none)
    else
      match FastMap.find_in_bucket s.chain k with
      | none => (false, s, none)
      | some (pos, kv) =>
        let out := if wantOut && kv.entry.is_alive now then some kv.value else none
        (true, ⟨s.chain.eraseIdx pos, sub32one s.bucketSize, sub64one s.hsize⟩, out)

/-- `FastMap::remove(key, expected_value)`: conditional removal; fails
unless the found record is alive and its value bytes equal the expected
bytes. -/
def FastMap.removeCond (s : FastMapState) (key : Option (List Nat)) (expected : List Nat)
    (now : Nat) : Bool × FastMapState :=
  match key with
  | none => (false, s)
  | some k =>
    if k.length == 0 then (false, s)
    else
      match FastMap.find_in_bucket s.chain k with
      | none => (false, s)
      | some (pos, kv) =>
        if !kv.entry.is_alive now then (false, s)
        else if !(kv.value.length == expected.length && kv.value == expected) then (false, s)
        else (true, ⟨s.chain.eraseIdx pos, sub32one s.bucketSize, sub64one s.hsize⟩)

/-- `FastMap::replace(key, value, ttl)`: succeeds only when the found
record is alive; then updates in place or reallocates exactly like
`put`. -/
def FastMap.replace (s : FastMapState) (key : Option (List Nat)) (value : List Nat)
    (ttl : Int) (now : Nat) : Bool × FastMapState :=
  match key with
  | none => (false, s)
  | some k =>
    if k.length == 0 then (false, s)
    else
      match FastMap.find_in_bucket s.chain k with
      | none => (false, s)
      | some (pos, kv) =>
        if !kv.entry.is_alive now then (false, s)
        else if kv.value.length == value.length then
          let kv' := { kv with value := value,
                               entry := kv.entry.set_ttl ttl now }
          (true, { s with chain := s.chain.set pos kv' })
        else
          (true, { s with chain := s.chain.set pos (copy_to_kv k value ttl now) })

/-- The alive-record counting loop of `FastMap::size` over one bucket
chain. -/
def kvChainAliveCount : List ShmKeyValue → Nat → Nat
  | [], _ => 0
  | kv :: rest, now =>
    (if kv.entry.is_alive now then 1 else 0) + kvChainAliveCount rest now

/-- The enumeration of `FastMap::forEach` over one bucket chain (callback
always continuing): alive key/value pairs in chain order. -/
def kvChainAliveRecords : List ShmKeyValue → Nat → List (List Nat × List Nat)
  | [], _ => []
  | kv :: rest, now =>
    if kv.entry.is_alive now then (kv.key, kv.value) :: kvChainAliveRecords rest now
    else kvChainAliveRecords rest now

/-- `FastMap::size`: the double loop over all bucket chains. -/
def FastMap.size : List (List ShmKeyValue) → Nat → Nat
  | [], _ => 0
  | b :: rest, now => kvChainAliveCount b now + FastMap.size rest now

/-- `FastMap::forEach` over all buckets (callback always continuing). -/
def FastMap.forEachRecords : List (List ShmKeyValue) → Nat → List (List Nat × List Nat)
  | [], _ => []
  | b :: rest, now => kvChainAliveRecords b now ++ FastMap.forEachRecords rest now

/-! ## Mapped file regions and `isValidCollectionFile` (fc_common.cpp)

A memory-mapped collection file is modelled by its directory of named
regions.  The region contents relevant to the claims are the
collection-header variants (all of which embed `CollectionHeader`'s
magic/version prefix), the bucket arrays, and the stack's ABA counter. -/

/-- The scalar prefix common to every collection header
(`CollectionHeader` in fc_serialization.h, minus the interprocess lock,
which no claim touches). -/
structure CollectionHeader where
  magic : Nat
  version : Nat
  created_at : Nat
  modified_at : Nat
  size : Nat
deriving Repr, DecidableEq

/-- `CollectionHeader::MAGIC`. -/
def MAGIC : Nat := 0xFAC01EC0

/-- `CollectionHeader::CURRENT_VERSION`. -/
def CURRENT_VERSION : Nat := 1

/-- `CollectionHeader::is_valid`: magic and version must match. -/
def CollectionHeader.is_valid (h : CollectionHeader) : Bool :=
  h.magic == MAGIC && h.version == CURRENT_VERSION

/-- Contents of one named region in the mapped file. -/
inductive RegionContent
  | header (h : CollectionHeader)
  | bucketArray (count : Nat)
  | abaCounter (value : Nat)
deriving Repr, DecidableEq

/-- The directory of named regions of one mapped file. -/
structure MappedCollectionFile where
  regions : List (String × RegionContent)
deriving Repr, DecidableEq

/-- `managed_mapped_file::find<CollectionHeader>(name)`: look the name up
in the region directory and return the header stored there, if any. -/
def findHeaderRegion (f : MappedCollectionFile) (name : String) : Option CollectionHeader :=
  match f.regions.find? (fun p => p.1 == name) with
  | some (_, RegionContent.header h) => some h
  | _ => none

/-- `isValidCollectionFile` from fc_common.cpp: `none` models an absent
(or unopenable) file; otherwise the function looks up the region named
`"header"` and checks its magic and version. -/
def isValidCollectionFile (f : Option MappedCollectionFile) : Bool :=
  match f with
  | none => false
  | some file =>
    match findHeaderRegion file "header" with
    | some h => h.is_valid
    | none => false

/-- The region directory of a file created and populated by the
`FastList` constructor (fc_list.cpp): one named region `"list_header"`. -/
def listFileRegions (h : CollectionHeader) : MappedCollectionFile :=
  ⟨[("list_header", RegionContent.header h)]⟩

/-- Region directory of a file populated by the `FastSet` constructor
(fc_set.cpp): `"set_header"` and `"set_buckets"`. -/
def setFileRegions (h : CollectionHeader) (count : Nat) : MappedCollectionFile :=
  ⟨[("set_header", RegionContent.header h), ("set_buckets", RegionContent.bucketArray count)]⟩

/-- Region directory of a file populated by the `FastMap` constructor
(fc_map.cpp): `"map_header"` and `"map_buckets"`. -/
def mapFileRegions (h : CollectionHeader) (count : Nat) : MappedCollectionFile :=
  ⟨[("map_header", RegionContent.header h), ("map_buckets", RegionContent.bucketArray count)]⟩

/-- Region directory of a file populated by the `FastQueue` constructor
(fc_queue.cpp): one named region `"queue_header"`. -/
def queueFileRegions (h : CollectionHeader) : MappedCollectionFile :=
  ⟨[("queue_header", RegionContent.header h)]⟩

/-- Region directory of a file populated by the `FastStack` constructor
(fc_stack.cpp): `"stack_header"` and `"stack_aba_tag"`. -/
def stackFileRegions (h : CollectionHeader) (aba : Nat) : MappedCollectionFile :=
  ⟨[("stack_header", RegionContent.header h), ("stack_aba_tag", RegionContent.abaCounter aba)]⟩

/-! ## `MMapFileManager::allocate` / `grow` (fc_common.cpp)

The boost heap inside the mapping is abstracted to its free-byte count;
`canGrow` records whether the OS-level file grow
(`managed_mapped_file::grow`) would succeed.  `allocate` is instrumented
with the list of grow requests it makes, so "exactly one grow of
`bytes + growth_step`" is a provable statement. -/

/-- Abstract state of the managed mapped file's heap. -/
structure MMapHeap where
  freeBytes : Nat
  totalBytes : Nat
  canGrow : Bool
deriving Repr, DecidableEq

/-- The underlying `managed_mapped_file::allocate`: succeeds exactly when
enough free bytes remain, else throws `boost::interprocess::bad_alloc`
(modelled as `none`). -/
def rawAllocate (h : MMapHeap) (bytes : Nat) : Option MMapHeap :=
  if bytes ≤ h.freeBytes then some { h with freeBytes := h.freeBytes - bytes }
  else none

/-- `MMapFileManager::grow(additional_bytes)`: drop the mapping, grow the
file by `additional_bytes`, remap; returns `false` (state unchanged, file
merely reopened) when the OS grow fails. -/
def MMapFileManager.grow (h : MMapHeap) (additional : Nat) : Option MMapHeap :=
  if h.canGrow then
    some { h with freeBytes := h.freeBytes + additional,
                  totalBytes := h.totalBytes + additional }
  else none

/-- Outcome of `MMapFileManager::allocate`, carrying the list of grow
requests that were attempted. -/
inductive AllocOutcome
  | ok (heap : MMapHeap) (growRequests : List Nat)
  | memoryAllocationFailed (growRequests : List Nat)
  | bipBadAlloc (growRequests : List Nat)
deriving Repr, DecidableEq

/-- `MMapFileManager::allocate(bytes)`: try the raw allocation; on
`bad_alloc`, attempt one `grow(bytes + growth_size_)` and retry; when the
grow fails, raise `MEMORY_ALLOCATION_FAILED`.  (A `bad_alloc` from the
retry would escape as a boost exception — `bipBadAlloc`.) -/
def MMapFileManager.allocate (h : MMapHeap) (bytes : Nat) : AllocOutcome :=
  match rawAllocate h bytes with
  | some h1 => AllocOutcome.ok h1 []
  | none =>
    match MMapFileManager.grow h (bytes + DEFAULT_GROWTH_SIZE) with
    | some h2 =>
      match rawAllocate h2 bytes with
      | some h3 => AllocOutcome.ok h3 [bytes + DEFAULT_GROWTH_SIZE]
      | none => AllocOutcome.bipBadAlloc [bytes + DEFAULT_GROWTH_SIZE]
    | none => AllocOutcome.memoryAllocationFailed [bytes + DEFAULT_GROWTH_SIZE]

/-! ## Helper lemmas -/

/-- The alive-counting loop and the `forEach` enumeration walk the same
chain with the same filter, so the count equals the number of enumerated
records. -/
theorem chainAliveCount_eq_length_records (chain : List ShmNode) (now : Nat) :
    chainAliveCount chain now = (chainAliveRecords chain now).length := by
  induction chain with
  | nil => rfl
  | cons n rest ih =>
    simp only [chainAliveCount, chainAliveRecords]
    by_cases h : n.entry.is_alive now
    · simp [h, ih, Nat.add_comm]
    · simp [h, ih]

/-- Key/value analogue of `chainAliveCount_eq_length_records`. -/
theorem kvChainAliveCount_eq_length_records (chain : List ShmKeyValue) (now : Nat) :
    kvChainAliveCount chain now = (kvChainAliveRecords chain now).length := by
  induction chain with
  | nil => rfl
  | cons kv rest ih =>
    simp only [kvChainAliveCount, kvChainAliveRecords]
    by_cases h : kv.entry.is_alive now
    · simp [h, ih, Nat.add_comm]
    · simp [h, ih]

/-- Bucket-summed version for the set. -/
theorem setSize_eq_length_records (buckets : List (List ShmNode)) (now : Nat) :
    FastSet.size buckets now = (FastSet.forEachRecords buckets now).length := by
  induction buckets with
  | nil => rfl
  | cons b rest ih =>
    simp [FastSet.size, FastSet.forEachRecords, chainAliveCount_eq_length_records, ih]

/-- Bucket-summed version for the map. -/
theorem mapSize_eq_length_records (buckets : List (List ShmKeyValue)) (now : Nat) :
    FastMap.size buckets now = (FastMap.forEachRecords buckets now).length := by
  induction buckets with
  | nil => rfl
  | cons b rest ih =>
    simp [FastMap.size, FastMap.forEachRecords, kvChainAliveCount_eq_length_records, ih]

/-! ## C6 -/

/-- C6: for every state of every container, `size()` equals the number of
records enumerated by `for_each` — both recount alive records by walking
the chains, ignoring the header's stored size counter (which appears in
none of these definitions); as a `Nat`/`size_t` the result is trivially
non-negative. -/
theorem c6_size_eq_forEach_count (now : Nat) (s : FastListState) (q : FastQueueState)
    (st : FastStackState) (sbuckets : List (List ShmNode))
    (mbuckets : List (List ShmKeyValue)) :
    FastList.size s now = (FastList.forEachRecords s now).length ∧
    FastQueue.size q now = (FastQueue.forEachRecords q now).length ∧
    FastStack.size st now = (FastStack.forEachRecords st now).length ∧
    FastSet.size sbuckets now = (FastSet.forEachRecords sbuckets now).length ∧
    FastMap.size mbuckets now = (FastMap.forEachRecords mbuckets now).length :=
  ⟨chainAliveCount_eq_length_records s.chain now,
   chainAliveCount_eq_length_records q.chain now,
   chainAliveCount_eq_length_records st.chain now,
   setSize_eq_length_records sbuckets now,
   mapSize_eq_length_records mbuckets now⟩

/-! ## C8 -/

/-- C8: an allocation that fits succeeds with no grow attempt; an
allocation that does not fit triggers exactly one grow request of
`bytes + growth_step` and retries; when that grow fails the operation
raises `MEMORY_ALLOCATION_FAILED`. -/
theorem c8_allocate_one_grow_retry (h : MMapHeap) (bytes : Nat) :
    (bytes ≤ h.freeBytes →
      MMapFileManager.allocate h bytes =
        AllocOutcome.ok { h with freeBytes := h.freeBytes - bytes } []) ∧
    (¬ bytes ≤ h.freeBytes → h.canGrow = false →
      MMapFileManager.allocate h bytes =
        AllocOutcome.memoryAllocationFailed [bytes + DEFAULT_GROWTH_SIZE]) ∧
    (¬ bytes ≤ h.freeBytes → h.canGrow = true →
      MMapFileManager.allocate h bytes =
        AllocOutcome.ok
          { h with freeBytes := h.freeBytes + DEFAULT_GROWTH_SIZE,
                   totalBytes := h.totalBytes + (bytes + DEFAULT_GROWTH_SIZE) }
          [bytes + DEFAULT_GROWTH_SIZE]) := by
  refine ⟨?_, ?_, ?_⟩
  · intro hle
    simp [MMapFileManager.allocate, rawAllocate, hle]
  · intro hgt hng
    simp [MMapFileManager.allocate, rawAllocate, MMapFileManager.grow, hgt, hng]
  · intro hgt hg
    have hle : bytes ≤ h.freeBytes + (bytes + DEFAULT_GROWTH_SIZE) := by omega
    simp only [MMapFileManager.allocate, rawAllocate, MMapFileManager.grow, hgt, hg,
      if_false, if_true, hle]
    have : h.freeBytes + (bytes + DEFAULT_GROWTH_SIZE) - bytes =
        h.freeBytes + DEFAULT_GROWTH_SIZE := by omega
    simp [this]

/-- Witness for C8: a concrete heap with 10 free bytes that cannot grow
fails a 20-byte allocation with `MEMORY_ALLOCATION_FAILED` after one grow
request of `20 + growth_step`. -/
theorem c8_allocate_one_grow_retry_witness :
    MMapFileManager.allocate ⟨10, 100, false⟩ 20 =
      AllocOutcome.memoryAllocationFailed [20 + DEFAULT_GROWTH_SIZE] :=
  (c8_allocate_one_grow_retry ⟨10, 100, false⟩ 20).2.1 (by decide) rfl

/-! ## C2 -/

/-- C2: `isValidCollectionFile` looks up a region named `"header"`, but the
five container constructors name their header regions `"list_header"`,
`"set_header"`, `"map_header"`, `"queue_header"` and `"stack_header"`, so
a file created and populated by any of the five containers — with a
perfectly valid magic/version header — is reported invalid.  (The absent
file and the mismatched-header cases do return `false` as claimed.) -/
theorem c2_is_valid_file_misses_container_headers :
    CollectionHeader.is_valid ⟨MAGIC, CURRENT_VERSION, 7, 7, 0⟩ = true ∧
    isValidCollectionFile (some (listFileRegions ⟨MAGIC, CURRENT_VERSION, 7, 7, 0⟩)) = false ∧
    isValidCollectionFile (some (setFileRegions ⟨MAGIC, CURRENT_VERSION, 7, 7, 0⟩ 16384)) = false ∧
    isValidCollectionFile (some (mapFileRegions ⟨MAGIC, CURRENT_VERSION, 7, 7, 0⟩ 16384)) = false ∧
    isValidCollectionFile (some (queueFileRegions ⟨MAGIC, CURRENT_VERSION, 7, 7, 0⟩)) = false ∧
    isValidCollectionFile (some (stackFileRegions ⟨MAGIC, CURRENT_VERSION, 7, 7, 0⟩ 0)) = false ∧
    isValidCollectionFile none = false ∧
    isValidCollectionFile
      (some ⟨[("header", RegionContent.header ⟨MAGIC, CURRENT_VERSION, 7, 7, 0⟩)]⟩) = true ∧
    isValidCollectionFile
      (some ⟨[("header", RegionContent.header ⟨0, CURRENT_VERSION, 7, 7, 0⟩)]⟩) = false := by
  decide

/-! ## C1 -/

/-- C1: `FastSet::find_in_bucket` filters on `is_alive`, so an existing
record whose bytes match but which is expired (state Valid, past
`expires_at`) is never found; `add` then takes its miss path: it allocates
a fresh node, splices it at the head of the bucket chain and returns
`true`, leaving the expired record linked, unrevived — the in-place
revival branch of `add` is unreachable.  Evaluated here on a bucket whose
chain holds exactly one record with bytes `[7]`, written with TTL 1 second
at time 1 and read at time `2·10^9` (expired), and, for the second half of
the claim, at time `10^8` (alive), where `add` does return `false` and
changes nothing. -/
theorem c1_set_add_does_not_revive_expired :
    (ShmEntry.is_expired ⟨STATE_VALID, 1, compute_hash [7], 1, 1, 1000000001, 0⟩
        2000000000 = true) ∧
    (FastSet.add ⟨[⟨⟨STATE_VALID, 1, compute_hash [7], 1, 1, 1000000001, 0⟩, [7]⟩], 1, 1⟩
        (some [7]) 5 2000000000 =
      (true, ⟨[copy_to_node [7] 5 2000000000,
               ⟨⟨STATE_VALID, 1, compute_hash [7], 1, 1, 1000000001, 0⟩, [7]⟩], 2, 2⟩)) ∧
    (FastSet.add ⟨[⟨⟨STATE_VALID, 1, compute_hash [7], 1, 1, 1000000001, 0⟩, [7]⟩], 1, 1⟩
        (some [7]) 5 100000000 =
      (false, ⟨[⟨⟨STATE_VALID, 1, compute_hash [7], 1, 1, 1000000001, 0⟩, [7]⟩], 1, 1⟩)) := by
  decide

/-! ## C5 -/

/-- C5: an entry written with `ttl_seconds = 0` at any positive write time
`w` (below the `uint64_t` range) is dead for every read at a strictly
later time, and a `contains` probe for its bytes then misses; an entry
written with `ttl_seconds = -1` is alive at every time, its remaining TTL
is reported as `-1`, and the container-level `getTTL` probe returns `-1`
for as long as the record exists. -/
theorem c5_ttl_zero_and_infinite (bs : List Nat) (w now : Nat)
    (hw : 0 < w) (hwU : w < U64) (hbs : bs ≠ []) :
    (w < now → (copy_to_node bs 0 w).entry.is_alive now = false) ∧
    (w < now → (copy_to_node bs 0 w).entry.remaining_ttl_seconds now = 0) ∧
    (w < now → setContainsChain [copy_to_node bs 0 w] (some bs) now = false) ∧
    (copy_to_node bs (-1) w).entry.is_alive now = true ∧
    (copy_to_node bs (-1) w).entry.remaining_ttl_seconds now = -1 ∧
    setGetTTLChain [copy_to_node bs (-1) w] (some bs) now = -1 := by
  have hlen : ¬ bs.length = 0 := fun h => hbs (List.length_eq_zero.mp h)
  have hne : w ≠ 0 := by omega
  have hwU' : w < 18446744073709551616 := by simpa [U64] using hwU
  have hexp0 : (copy_to_node bs 0 w).entry.expires_at = w := by
    show (if (0 : Int) < 0 then 0 else wrap64 (w + (0 : Int).toNat * 1000000000)) = w
    simp [wrap64, U64]
    omega
  have hexpInf : (copy_to_node bs (-1) w).entry.expires_at = 0 := by
    show (if (-1 : Int) < 0 then 0 else wrap64 (w + (-1 : Int).toNat * 1000000000)) = 0
    simp
  have hvalid0 : (copy_to_node bs 0 w).entry.is_valid = true := rfl
  have hvalidInf : (copy_to_node bs (-1) w).entry.is_valid = true := rfl
  have halive0 : w < now → (copy_to_node bs 0 w).entry.is_alive now = false := by
    intro hlt
    simp only [ShmEntry.is_alive, hvalid0, hexp0, Bool.not_true, Bool.false_eq_true, if_false]
    simp [hne]
    omega
  have haliveInf : (copy_to_node bs (-1) w).entry.is_alive now = true := by
    simp only [ShmEntry.is_alive, hvalidInf, hexpInf, Bool.not_true, Bool.false_eq_true,
      if_false]
    simp
  have hremInf : (copy_to_node bs (-1) w).entry.remaining_ttl_seconds now = -1 := by
    have httl : (copy_to_node bs (-1) w).entry.ttl_seconds = -1 := rfl
    simp [ShmEntry.remaining_ttl_seconds, httl]
  have hhashInf : (copy_to_node bs (-1) w).entry.hash_code = compute_hash bs := rfl
  have hsizeInf : (copy_to_node bs (-1) w).entry.data_size = bs.length := rfl
  have hdataInf : (copy_to_node bs (-1) w).data = bs := rfl
  refine ⟨halive0, ?_, ?_, haliveInf, hremInf, ?_⟩
  · intro hlt
    have httl : (copy_to_node bs 0 w).entry.ttl_seconds = 0 := rfl
    simp [ShmEntry.remaining_ttl_seconds, httl, hexp0]
    omega
  · intro hlt
    simp [setContainsChain, hlen, FastSet.find_in_bucket, setFindAux, halive0 hlt]
  · simp [setGetTTLChain, hlen, FastSet.find_in_bucket, setFindAux, haliveInf,
      hhashInf, hsizeInf, hdataInf, hremInf]

/-- Witness for C5: bytes `[9]` written at time 5 with TTL 0 are dead at
time 6; written with TTL −1 they are alive with remaining TTL −1. -/
theorem c5_ttl_zero_and_infinite_witness :
    (copy_to_node [9] 0 5).entry.is_alive 6 = false ∧
    (copy_to_node [9] (-1) 5).entry.remaining_ttl_seconds 6 = -1 :=
  ⟨(c5_ttl_zero_and_infinite [9] 5 6 (by decide) (by decide) (by decide)).1 (by decide),
   (c5_ttl_zero_and_infinite [9] 5 6 (by decide) (by decide)
      (by decide)).2.2.2.2.1⟩

/-! ## C9 -/

/-- A record returned by the set's bucket probe is a member of the chain,
is alive, and its bytes equal the probed bytes. -/
theorem setFindAux_some_mem {chain : List ShmNode} {data : List Nat} {hash now pos : Nat}
    {p : Nat × ShmNode} (h : setFindAux chain data hash now pos = some p) :
    p.2 ∈ chain ∧ p.2.entry.is_alive now = true ∧ p.2.data = data := by
  induction chain generalizing pos with
  | nil => simp [setFindAux] at h
  | cons n rest ih =>
    rw [setFindAux] at h
    by_cases hc : (n.entry.is_alive now && n.entry.hash_code == hash &&
        n.entry.data_size == data.length && n.data == data) = true
    · rw [if_pos hc] at h
      cases h
      simp only [Bool.and_eq_true, beq_iff_eq] at hc
      exact ⟨List.mem_cons_self _ _, hc.1.1.1, hc.2⟩
    · rw [if_neg hc] at h
      have := ih h
      exact ⟨List.mem_cons_of_mem _ this.1, this.2⟩

/-- A record returned by the map's bucket probe is a member of the chain
and its key bytes equal the probed key. -/
theorem mapFindAux_some_mem {chain : List ShmKeyValue} {key : List Nat} {hash pos : Nat}
    {p : Nat × ShmKeyValue} (h : mapFindAux chain key hash pos = some p) :
    p.2 ∈ chain ∧ p.2.key = key := by
  induction chain generalizing pos with
  | nil => simp [mapFindAux] at h
  | cons kv rest ih =>
    rw [mapFindAux] at h
    by_cases hc : (kv.entry.hash_code == hash && kv.key.length == key.length &&
        kv.key == key) = true
    · rw [if_pos hc] at h
      cases h
      simp only [Bool.and_eq_true, beq_iff_eq] at hc
      exact ⟨List.mem_cons_self _ _, hc.2⟩
    · rw [if_neg hc] at h
      have := ih h
      exact ⟨List.mem_cons_of_mem _ this.1, this.2⟩

/-- `(copy_to_node bs ttl now).data` is the payload that was copied in. -/
theorem copy_to_node_data (bs : List Nat) (ttl : Int) (now : Nat) :
    (copy_to_node bs ttl now).data = bs := rfl

/-- `(copy_to_kv k v ttl now).key` is the key that was copied in. -/
theorem copy_to_kv_key (k v : List Nat) (ttl : Int) (now : Nat) :
    (copy_to_kv k v ttl now).key = k := rfl

/-- `FastList::add` never links a node with an empty payload. -/
theorem listAdd_nonempty (s : FastListState) (d : Option (List Nat)) (ttl : Int) (now : Nat)
    (hpre : ∀ n ∈ s.chain, n.data ≠ []) :
    ∀ n ∈ (FastList.add s d ttl now).2.chain, n.data ≠ [] := by
  cases d with
  | none => simpa [FastList.add] using hpre
  | some bs =>
    by_cases hb : bs.length = 0
    · simpa [FastList.add, hb] using hpre
    · intro n hn
      simp only [FastList.add, beq_iff_eq, hb, if_false] at hn
      rcases List.mem_append.mp hn with hn | hn
      · exact hpre n hn
      · rcases List.mem_singleton.mp hn with rfl
        rw [copy_to_node_data]
        exact fun h => hb (by simp [h])

/-- `FastList::addFirst` never links a node with an empty payload. -/
theorem listAddFirst_nonempty (s : FastListState) (d : Option (List Nat)) (ttl : Int)
    (now : Nat) (hpre : ∀ n ∈ s.chain, n.data ≠ []) :
    ∀ n ∈ (FastList.addFirst s d ttl now).2.chain, n.data ≠ [] := by
  cases d with
  | none => simpa [FastList.addFirst] using hpre
  | some bs =>
    by_cases hb : bs.length = 0
    · simpa [FastList.addFirst, hb] using hpre
    · intro n hn
      simp only [FastList.addFirst, beq_iff_eq, hb, if_false] at hn
      rcases List.mem_cons.mp hn with rfl | hn
      · rw [copy_to_node_data]
        exact fun h => hb (by simp [h])
      · exact hpre n hn

/-- `FastList::add(index, …)` never links a node with an empty payload. -/
theorem listAddAt_nonempty (s : FastListState) (idx : Nat) (d : Option (List Nat))
    (ttl : Int) (now : Nat) (hpre : ∀ n ∈ s.chain, n.data ≠ []) :
    ∀ n ∈ (FastList.addAt s idx d ttl now).2.chain, n.data ≠ [] := by
  cases d with
  | none => simpa [FastList.addAt] using hpre
  | some bs =>
    by_cases hb : bs.length = 0
    · simpa [FastList.addAt, hb] using hpre
    · by_cases h1 : idx > s.hsize
      · simpa [FastList.addAt, hb, h1] using hpre
      · by_cases h2 : idx = s.hsize
        · have := listAdd_nonempty s (some bs) ttl now hpre
          simpa [FastList.addAt, hb, h1, h2] using this
        · by_cases h3 : idx = 0
          · subst h3
            have := listAddFirst_nonempty s (some bs) ttl now hpre
            simpa [FastList.addAt, hb, h1, h2] using this
          · rcases hmatch : FastList.node_at_index s now idx with _ | pos
            · simpa [FastList.addAt, hb, h1, h2, h3, hmatch] using hpre
            · intro n hn
              simp only [FastList.addAt, beq_iff_eq, hb, if_false, h1, h2, h3,
                hmatch] at hn
              simp only [decide_eq_true_eq, if_false, ite_false] at hn
              rcases List.mem_append.mp hn with hn | hn
              · exact hpre n (List.mem_of_mem_take hn)
              · rcases List.mem_cons.mp hn with rfl | hn
                · rw [copy_to_node_data]
                  exact fun h => hb (by simp [h])
                · exact hpre n (List.mem_of_mem_drop hn)

/-- `FastSet::add` never links or rewrites a node into an empty payload. -/
theorem setAdd_nonempty (s : FastSetState) (d : Option (List Nat)) (ttl : Int) (now : Nat)
    (hpre : ∀ n ∈ s.chain, n.data ≠ []) :
    ∀ n ∈ (FastSet.add s d ttl now).2.chain, n.data ≠ [] := by
  cases d with
  | none => simpa [FastSet.add] using hpre
  | some bs =>
    by_cases hb : bs.length = 0
    · simpa [FastSet.add, hb] using hpre
    · rcases hmatch : FastSet.find_in_bucket s.chain bs now with _ | ⟨pos, n0⟩
      · intro n hn
        simp only [FastSet.add, beq_iff_eq, hb, if_false, hmatch] at hn
        rcases List.mem_cons.mp hn with rfl | hn
        · rw [copy_to_node_data]
          exact fun h => hb (by simp [h])
        · exact hpre n hn
      · by_cases halive : n0.entry.is_alive now = true
        · simpa [FastSet.add, hb, hmatch, halive] using hpre
        · intro n hn
          simp only [FastSet.add, beq_iff_eq, hb, if_false, hmatch, halive] at hn
          rcases List.mem_or_eq_of_mem_set hn with hn | rfl
          · exact hpre n hn
          · have hm := setFindAux_some_mem (p := (pos, n0)) hmatch
            show n0.data ≠ []
            rw [hm.2.2]
            exact fun h => hb (by simp [h])

/-- `FastMap::put` never links or rewrites a record onto an empty key. -/
theorem mapPut_nonempty_key (s : FastMapState) (d : Option (List Nat)) (v : List Nat)
    (ttl : Int) (now : Nat) (hpre : ∀ kv ∈ s.chain, kv.key ≠ []) :
    ∀ kv ∈ (FastMap.put s d v ttl now).2.chain, kv.key ≠ [] := by
  cases d with
  | none => simpa [FastMap.put] using hpre
  | some k =>
    by_cases hb : k.length = 0
    · simpa [FastMap.put, hb] using hpre
    · have hk : k ≠ [] := fun h => hb (by simp [h])
      rcases hmatch : FastMap.find_in_bucket s.chain k with _ | ⟨pos, kv0⟩
      · intro kv hn
        simp only [FastMap.put, beq_iff_eq, hb, if_false, hmatch] at hn
        rcases List.mem_cons.mp hn with rfl | hn
        · rw [copy_to_kv_key]; exact hk
        · exact hpre kv hn
      · by_cases hlen : kv0.value.length = v.length
        · intro kv hn
          simp only [FastMap.put, beq_iff_eq, hb, if_false, hmatch, hlen, if_true] at hn
          rcases List.mem_or_eq_of_mem_set hn with hn | rfl
          · exact hpre kv hn
          · have hm := mapFindAux_some_mem (p := (pos, kv0)) hmatch
            show kv0.key ≠ []
            rw [hm.2]; exact hk
        · intro kv hn
          simp only [FastMap.put, beq_iff_eq, hb, if_false, hmatch, hlen] at hn
          rcases List.mem_or_eq_of_mem_set hn with hn | rfl
          · exact hpre kv hn
          · rw [copy_to_kv_key]; exact hk

/-- `FastMap::putIfAbsent` never links a record with an empty key. -/
theorem mapPutIfAbsent_nonempty_key (s : FastMapState) (d : Option (List Nat)) (v : List Nat)
    (ttl : Int) (now : Nat) (hpre : ∀ kv ∈ s.chain, kv.key ≠ []) :
    ∀ kv ∈ (FastMap.putIfAbsent s d v ttl now).2.chain, kv.key ≠ [] := by
  cases d with
  | none => simpa [FastMap.putIfAbsent] using hpre
  | some k =>
    by_cases hb : k.length = 0
    · simpa [FastMap.putIfAbsent, hb] using hpre
    · have hk : k ≠ [] := fun h => hb (by simp [h])
      rcases hmatch : FastMap.find_in_bucket s.chain k with _ | ⟨pos, kv0⟩
      · intro kv hn
        simp only [FastMap.putIfAbsent, beq_iff_eq, hb, if_false, hmatch] at hn
        rcases List.mem_cons.mp hn with rfl | hn
        · rw [copy_to_kv_key]; exact hk
        · exact hpre kv hn
      · by_cases halive : kv0.entry.is_alive now = true
        · simpa [FastMap.putIfAbsent, hb, hmatch, halive] using hpre
        · intro kv hn
          simp only [FastMap.putIfAbsent, beq_iff_eq, hb, if_false, hmatch, halive] at hn
          rcases List.mem_cons.mp hn with rfl | hn
          · rw [copy_to_kv_key]; exact hk
          · exact hpre kv (List.mem_of_mem_eraseIdx hn)

/-- `FastQueue::offer` never links a node with an empty payload. -/
theorem queueOffer_nonempty (q : FastQueueState) (d : Option (List Nat)) (ttl : Int)
    (now : Nat) (hpre : ∀ n ∈ q.chain, n.data ≠ []) :
    ∀ n ∈ (FastQueue.offer q d ttl now).2.chain, n.data ≠ [] := by
  cases d with
  | none => simpa [FastQueue.offer] using hpre
  | some bs =>
    by_cases hb : bs.length = 0
    · simpa [FastQueue.offer, hb] using hpre
    · intro n hn
      simp only [FastQueue.offer, beq_iff_eq, hb, if_false] at hn
      rcases List.mem_append.mp hn with hn | hn
      · exact hpre n hn
      · rcases List.mem_singleton.mp hn with rfl
        rw [copy_to_node_data]
        exact fun h => hb (by simp [h])

/-- `FastQueue::offerFirst` never links a node with an empty payload. -/
theorem queueOfferFirst_nonempty (q : FastQueueState) (d : Option (List Nat)) (ttl : Int)
    (now : Nat) (hpre : ∀ n ∈ q.chain, n.data ≠ []) :
    ∀ n ∈ (FastQueue.offerFirst q d ttl now).2.chain, n.data ≠ [] := by
  cases d with
  | none => simpa [FastQueue.offerFirst] using hpre
  | some bs =>
    by_cases hb : bs.length = 0
    · simpa [FastQueue.offerFirst, hb] using hpre
    · intro n hn
      simp only [FastQueue.offerFirst, beq_iff_eq, hb, if_false] at hn
      rcases List.mem_cons.mp hn with rfl | hn
      · rw [copy_to_node_data]
        exact fun h => hb (by simp [h])
      · exact hpre n hn

/-- `FastStack::push` never links a node with an empty payload. -/
theorem stackPush_nonempty (st : FastStackState) (d : Option (List Nat)) (ttl : Int)
    (now : Nat) (hpre : ∀ n ∈ st.chain, n.data ≠ []) :
    ∀ n ∈ (FastStack.push st d ttl now).2.chain, n.data ≠ [] := by
  cases d with
  | none => simpa [FastStack.push] using hpre
  | some bs =>
    by_cases hb : bs.length = 0
    · simpa [FastStack.push, hb] using hpre
    · intro n hn
      simp only [FastStack.push, beq_iff_eq, hb, if_false] at hn
      rcases List.mem_cons.mp hn with rfl | hn
      · rw [copy_to_node_data]
        exact fun h => hb (by simp [h])
      · exact hpre n hn

/-- C9: every insertion operation (list `add`/`addFirst`/`add(index)`, set
`add`, map `put`/`putIfAbsent` with respect to the key, queue
`offer`/`offerFirst`, stack `push`) rejects a null data pointer or a
zero-length payload: it returns `false` and leaves the container state
(chains, size counters, ABA tag) exactly as it was; and since every
insertion path only ever links non-empty payloads (non-empty keys for the
map), a zero-length byte string can never be stored. -/
theorem c9_insertion_null_or_empty_guards (ls : FastListState) (qs : FastQueueState)
    (sts : FastStackState) (ss : FastSetState) (ms : FastMapState)
    (idx : Nat) (v : List Nat) (ttl : Int) (now : Nat) (d : Option (List Nat))
    (hd : d = none ∨ d = some []) :
    (FastList.add ls d ttl now = (false, ls) ∧
     FastList.addFirst ls d ttl now = (false, ls) ∧
     FastList.addAt ls idx d ttl now = (false, ls) ∧
     FastSet.add ss d ttl now = (false, ss) ∧
     FastMap.put ms d v ttl now = (false, ms) ∧
     FastMap.putIfAbsent ms d v ttl now = (false, ms) ∧
     FastQueue.offer qs d ttl now = (false, qs) ∧
     FastQueue.offerFirst qs d ttl now = (false, qs) ∧
     FastStack.push sts d ttl now = (false, sts)) ∧
    (∀ d' : Option (List Nat),
      ((∀ n ∈ ls.chain, n.data ≠ []) →
        (∀ n ∈ (FastList.add ls d' ttl now).2.chain, n.data ≠ []) ∧
        (∀ n ∈ (FastList.addFirst ls d' ttl now).2.chain, n.data ≠ []) ∧
        (∀ n ∈ (FastList.addAt ls idx d' ttl now).2.chain, n.data ≠ [])) ∧
      ((∀ n ∈ ss.chain, n.data ≠ []) →
        (∀ n ∈ (FastSet.add ss d' ttl now).2.chain, n.data ≠ [])) ∧
      ((∀ kv ∈ ms.chain, kv.key ≠ []) →
        (∀ kv ∈ (FastMap.put ms d' v ttl now).2.chain, kv.key ≠ []) ∧
        (∀ kv ∈ (FastMap.putIfAbsent ms d' v ttl now).2.chain, kv.key ≠ [])) ∧
      ((∀ n ∈ qs.chain, n.data ≠ []) →
        (∀ n ∈ (FastQueue.offer qs d' ttl now).2.chain, n.data ≠ []) ∧
        (∀ n ∈ (FastQueue.offerFirst qs d' ttl now).2.chain, n.data ≠ [])) ∧
      ((∀ n ∈ sts.chain, n.data ≠ []) →
        (∀ n ∈ (FastStack.push sts d' ttl now).2.chain, n.data ≠ []))) := by
  constructor
  · rcases hd with rfl | rfl <;>
      simp [FastList.add, FastList.addFirst, FastList.addAt, FastSet.add,
        FastMap.put, FastMap.putIfAbsent, FastQueue.offer, FastQueue.offerFirst,
        FastStack.push]
  · intro d'
    exact ⟨fun hpre => ⟨listAdd_nonempty ls d' ttl now hpre,
             listAddFirst_nonempty ls d' ttl now hpre,
             listAddAt_nonempty ls idx d' ttl now hpre⟩,
           fun hpre => setAdd_nonempty ss d' ttl now hpre,
           fun hpre => ⟨mapPut_nonempty_key ms d' v ttl now hpre,
             mapPutIfAbsent_nonempty_key ms d' v ttl now hpre⟩,
           fun hpre => ⟨queueOffer_nonempty qs d' ttl now hpre,
             queueOfferFirst_nonempty qs d' ttl now hpre⟩,
           fun hpre => stackPush_nonempty sts d' ttl now hpre⟩

/-- Witness for C9: on concrete one-element containers, a null pointer and
an empty payload are both rejected. -/
theorem c9_insertion_null_or_empty_guards_witness :
    FastList.add ⟨[], 0⟩ none (-1) 5 = (false, ⟨[], 0⟩) ∧
    FastStack.push ⟨[], 0, 0⟩ (some []) (-1) 5 = (false, ⟨[], 0, 0⟩) :=
  ⟨((c9_insertion_null_or_empty_guards ⟨[], 0⟩ ⟨[], 0⟩ ⟨[], 0, 0⟩ ⟨[], 0, 0⟩ ⟨[], 0, 0⟩
      0 [] (-1) 5 none (Or.inl rfl)).1).1,
   (((((((((c9_insertion_null_or_empty_guards ⟨[], 0⟩ ⟨[], 0⟩ ⟨[], 0, 0⟩ ⟨[], 0, 0⟩
      ⟨[], 0, 0⟩ 0 [] (-1) 5 (some []) (Or.inr rfl)).1).2).2).2).2).2).2).2).2⟩

/-! ## C7 -/

/-- When no record in the bucket chain carries the probed key, the map's
bucket probe misses. -/
theorem mapFindAux_eq_none (chain : List ShmKeyValue) (k : List Nat) (hash pos : Nat)
    (h : ∀ kv ∈ chain, kv.key ≠ k) : mapFindAux chain k hash pos = none := by
  induction chain generalizing pos with
  | nil => rfl
  | cons kv rest ih =>
    rw [mapFindAux]
    have hkv : kv.key ≠ k := h kv (List.mem_cons_self _ _)
    have hc : (kv.entry.hash_code == hash && kv.key.length == k.length &&
        kv.key == k) = false := by
      simp [hkv]
    simp only [hc, Bool.false_eq_true, if_false]
    exact ih (pos + 1) (fun kv' hm => h kv' (List.mem_cons_of_mem _ hm))

/-- `FastMap::get` on a chain whose head record is alive and matches the
key returns the head's value bytes. -/
theorem mapGet_cons_match (kv : ShmKeyValue) (rest : List ShmKeyValue) (k : List Nat)
    (now : Nat) (hk : k ≠ []) (halive : kv.entry.is_alive now = true)
    (hhash : kv.entry.hash_code = compute_hash k) (hkey : kv.key = k) :
    FastMap.get (kv :: rest) (some k) now = some kv.value := by
  have hlen : ¬ k.length = 0 := fun h => hk (List.length_eq_zero.mp h)
  have hp : (kv.entry.is_alive now && kv.entry.hash_code == compute_hash k &&
      kv.key.length == k.length && kv.key == k) = true := by
    simp [halive, hhash, hkey]
  simp [FastMap.get, hlen, List.find?, hp]

/-- `(copy_to_kv k v ttl now).value` is the value that was copied in. -/
theorem copy_to_kv_value (k v : List Nat) (ttl : Int) (now : Nat) :
    (copy_to_kv k v ttl now).value = v := rfl

/-- `copy_to_kv` stores the FNV-1a hash of the key. -/
theorem copy_to_kv_hash (k v : List Nat) (ttl : Int) (now : Nat) :
    (copy_to_kv k v ttl now).entry.hash_code = compute_hash k := rfl

/-- `set_ttl` and `mark_valid` leave the stored hash code untouched. -/
theorem set_ttl_mark_valid_hash (e : ShmEntry) (ttl : Int) (w : Nat) :
    ((e.set_ttl ttl w).mark_valid).hash_code = e.hash_code := rfl

/-- An entry re-stamped with the infinite TTL and marked valid is alive at
every instant. -/
theorem set_ttl_mark_valid_alive_inf (e : ShmEntry) (w now : Nat) :
    ((e.set_ttl TTL_INFINITE w).mark_valid).is_alive now = true := by
  simp [ShmEntry.is_alive, ShmEntry.is_valid, ShmEntry.mark_valid, ShmEntry.set_ttl,
    TTL_INFINITE]

/-- A freshly written key/value record with infinite TTL is alive at every
instant. -/
theorem copy_to_kv_alive_inf (k v : List Nat) (w now : Nat) :
    (copy_to_kv k v TTL_INFINITE w).entry.is_alive now = true :=
  set_ttl_mark_valid_alive_inf _ w now

/-- `FastMap::put` with a non-empty key always reports success: it either
updates, replaces or inserts. -/
theorem mapPut_true (s : FastMapState) (k v : List Nat) (ttl : Int) (now : Nat)
    (hk : k ≠ []) : (FastMap.put s (some k) v ttl now).1 = true := by
  have hlen : ¬ k.length = 0 := fun h => hk (List.length_eq_zero.mp h)
  rcases h : FastMap.find_in_bucket s.chain k with _ | ⟨pos, kv0⟩
  · simp [FastMap.put, hlen, h]
  · by_cases hvl : kv0.value.length = v.length <;> simp [FastMap.put, hlen, h, hvl]

/-- C7: on a bucket chain holding no record for key `k`, `put(k, v1, ∞)`
succeeds and a later `get(k)` returns `v1`; a second `put(k, v2, ∞)` (the
in-place path when the value sizes agree, the reallocate-and-splice path
when they differ) also succeeds, after which `get(k)` returns `v2`. -/
theorem c7_map_put_then_get (s : FastMapState) (k v1 v2 : List Nat) (t1 t2 t3 : Nat)
    (hk : k ≠ []) (habs : ∀ kv ∈ s.chain, kv.key ≠ k) :
    (FastMap.put s (some k) v1 TTL_INFINITE t1).1 = true ∧
    FastMap.get (FastMap.put s (some k) v1 TTL_INFINITE t1).2.chain (some k) t2 =
      some v1 ∧
    (FastMap.put (FastMap.put s (some k) v1 TTL_INFINITE t1).2 (some k) v2
       TTL_INFINITE t2).1 = true ∧
    FastMap.get (FastMap.put (FastMap.put s (some k) v1 TTL_INFINITE t1).2 (some k) v2
       TTL_INFINITE t2).2.chain (some k) t3 = some v2 := by
  have hlen : ¬ k.length = 0 := fun h => hk (List.length_eq_zero.mp h)
  have hfind1 : FastMap.find_in_bucket s.chain k = none :=
    mapFindAux_eq_none s.chain k (compute_hash k) 0 habs
  have hput1 : FastMap.put s (some k) v1 TTL_INFINITE t1 =
      (true, ⟨copy_to_kv k v1 TTL_INFINITE t1 :: s.chain,
              wrap32 (s.bucketSize + 1), wrap64 (s.hsize + 1)⟩) := by
    simp [FastMap.put, hlen, hfind1]
  have hget1 : FastMap.get (FastMap.put s (some k) v1 TTL_INFINITE t1).2.chain
      (some k) t2 = some v1 := by
    rw [hput1]
    exact mapGet_cons_match _ _ k t2 hk (copy_to_kv_alive_inf k v1 t1 t2)
      (copy_to_kv_hash k v1 TTL_INFINITE t1) (copy_to_kv_key k v1 TTL_INFINITE t1)
  have hc : ((copy_to_kv k v1 TTL_INFINITE t1).entry.hash_code == compute_hash k &&
      (copy_to_kv k v1 TTL_INFINITE t1).key.length == k.length &&
      (copy_to_kv k v1 TTL_INFINITE t1).key == k) = true := by
    simp [copy_to_kv_key, copy_to_kv_hash]
  have hfind2 : FastMap.find_in_bucket
      (copy_to_kv k v1 TTL_INFINITE t1 :: s.chain) k =
      some (0, copy_to_kv k v1 TTL_INFINITE t1) := by
    rw [FastMap.find_in_bucket, mapFindAux]
    simp only [hc, if_true]
  refine ⟨by rw [hput1], hget1, ?_, ?_⟩
  · rw [hput1]
    exact mapPut_true _ k v2 TTL_INFINITE t2 hk
  · rw [hput1]
    by_cases hvl : (copy_to_kv k v1 TTL_INFINITE t1).value.length = v2.length
    · have hput2 : FastMap.put
          (⟨copy_to_kv k v1 TTL_INFINITE t1 :: s.chain,
            wrap32 (s.bucketSize + 1), wrap64 (s.hsize + 1)⟩ : FastMapState)
          (some k) v2 TTL_INFINITE t2 =
          (true, ⟨({ copy_to_kv k v1 TTL_INFINITE t1 with
                       value := v2,
                       entry := ((copy_to_kv k v1 TTL_INFINITE t1).entry.set_ttl
                         TTL_INFINITE t2).mark_valid }) :: s.chain,
                  wrap32 (s.bucketSize + 1), wrap64 (s.hsize + 1)⟩) := by
        simp [FastMap.put, hlen, hfind2, hvl]
      rw [hput2]
      exact mapGet_cons_match
        ({ copy_to_kv k v1 TTL_INFINITE t1 with
             value := v2,
             entry := ((copy_to_kv k v1 TTL_INFINITE t1).entry.set_ttl
               TTL_INFINITE t2).mark_valid })
        s.chain k t3 hk (set_ttl_mark_valid_alive_inf _ t2 t3)
        (by rw [set_ttl_mark_valid_hash]; exact copy_to_kv_hash k v1 TTL_INFINITE t1)
        (copy_to_kv_key k v1 TTL_INFINITE t1)
    · have hput2 : FastMap.put
          (⟨copy_to_kv k v1 TTL_INFINITE t1 :: s.chain,
            wrap32 (s.bucketSize + 1), wrap64 (s.hsize + 1)⟩ : FastMapState)
          (some k) v2 TTL_INFINITE t2 =
          (true, ⟨copy_to_kv k v2 TTL_INFINITE t2 :: s.chain,
                  wrap32 (s.bucketSize + 1), wrap64 (s.hsize + 1)⟩) := by
        simp [FastMap.put, hlen, hfind2, hvl]
      rw [hput2]
      exact mapGet_cons_match _ _ k t3 hk (copy_to_kv_alive_inf k v2 t2 t3)
        (copy_to_kv_hash k v2 TTL_INFINITE t2) (copy_to_kv_key k v2 TTL_INFINITE t2)

/-- Witness for C7: put/get round trip for key `[1]` with a same-length
then a longer value on an empty bucket chain. -/
theorem c7_map_put_then_get_witness :
    FastMap.get (FastMap.put (FastMap.put ⟨[], 0, 0⟩ (some [1]) [2] TTL_INFINITE 5).2
       (some [1]) [3, 4] TTL_INFINITE 6).2.chain (some [1]) 7 = some [3, 4] :=
  (c7_map_put_then_get ⟨[], 0, 0⟩ [1] [2] [3, 4] 5 6 7 (by decide) (by decide)).2.2.2

/-! ## C10 -/

/-- `FastMap::get` misses when every record for the key is dead. -/
theorem mapGet_eq_none (chain : List ShmKeyValue) (k : List Nat) (now : Nat)
    (hk : k ≠ []) (h : ∀ kv ∈ chain, kv.key = k → kv.entry.is_alive now = false) :
    FastMap.get chain (some k) now = none := by
  have hlen : ¬ k.length = 0 := fun hx => hk (List.length_eq_zero.mp hx)
  have hnone : chain.find? (fun kv =>
      kv.entry.is_alive now && kv.entry.hash_code == compute_hash k &&
      kv.key.length == k.length && kv.key == k) = none := by
    rw [List.find?_eq_none]
    intro kv hm
    by_cases hkey : kv.key = k
    · simp [h kv hm hkey]
    · simp [hkey]
  simp [FastMap.get, hlen, hnone]

/-- C10: when the record `find_in_bucket` returns for key `k` is dead
(state Valid but past `expires_at`) and no other alive record carries `k`,
the unconditional `remove(k)` still returns `true`, unlinks and frees the
record and decrements both size counters while leaving the caller's
out-value untouched; `get`, `replace` and the conditional
`remove(k, expected)` all apply the alive-only filter and fail without
modification. -/
theorem c10_map_remove_ignores_expiry (s : FastMapState) (k : List Nat) (now : Nat)
    (pos : Nat) (kv : ShmKeyValue) (hk : k ≠ [])
    (hfind : FastMap.find_in_bucket s.chain k = some (pos, kv))
    (hdead : kv.entry.is_alive now = false)
    (honly : ∀ kv' ∈ s.chain, kv'.key = k → kv'.entry.is_alive now = false) :
    FastMap.remove s (some k) true now =
      (true, ⟨s.chain.eraseIdx pos, sub32one s.bucketSize, sub64one s.hsize⟩, none) ∧
    FastMap.get s.chain (some k) now = none ∧
    (∀ v ttl, FastMap.replace s (some k) v ttl now = (false, s)) ∧
    (∀ expected, FastMap.removeCond s (some k) expected now = (false, s)) := by
  have hlen : ¬ k.length = 0 := fun hx => hk (List.length_eq_zero.mp hx)
  refine ⟨?_, mapGet_eq_none s.chain k now hk honly, ?_, ?_⟩
  · simp [FastMap.remove, hlen, hfind, hdead]
  · intro v ttl
    simp [FastMap.replace, hlen, hfind, hdead]
  · intro expected
    simp [FastMap.removeCond, hlen, hfind, hdead]

/-- Witness for C10: a bucket chain holding exactly one record for key
`[4]`, written with TTL 1 second at time 1 and probed at time `2·10^9`
(expired): the unconditional remove succeeds and empties the chain. -/
theorem c10_map_remove_ignores_expiry_witness :
    FastMap.remove ⟨[copy_to_kv [4] [5] 1 1], 1, 1⟩ (some [4]) true 2000000000 =
      (true, ⟨[], sub32one 1, sub64one 1⟩, none) :=
  (c10_map_remove_ignores_expiry ⟨[copy_to_kv [4] [5] 1 1], 1, 1⟩ [4] 2000000000 0
    (copy_to_kv [4] [5] 1 1) (by decide) (by decide) (by decide) (by decide)).1

/-! ## C4 -/

/-- The skip loop removes exactly the maximal run of expired nodes at the
front and decrements the size counter once per removed node. -/
theorem skipExpiredAux_eq (chain : List ShmNode) (hsize now : Nat)
    (hsz : hsize = chain.length) (hlt : chain.length < U64) :
    skipExpiredAux chain hsize now =
      (chain.dropWhile (fun m => m.entry.is_expired now),
       hsize - (chain.takeWhile (fun m => m.entry.is_expired now)).length) := by
  induction chain generalizing hsize with
  | nil => simp [skipExpiredAux]
  | cons n rest ih =>
    rw [skipExpiredAux]
    by_cases he : n.entry.is_expired now = true
    · rw [if_pos he]
      have hlen : hsize = rest.length + 1 := by simpa using hsz
      have hlt' : rest.length < U64 := by
        simp only [List.length_cons] at hlt
        omega
      have h1 : sub64one hsize = rest.length := by
        simp only [sub64one, U64] at *
        omega
      rw [h1, ih rest.length rfl hlt']
      simp only [List.dropWhile_cons, List.takeWhile_cons, he, if_true]
      refine Prod.ext rfl ?_
      simp only [List.length_cons]
      omega
    · rw [if_neg he]
      simp only [List.dropWhile_cons, List.takeWhile_cons, he, Bool.false_eq_true,
        if_false]
      simp

/-- A record in state Valid that is not expired is alive. -/
theorem alive_of_valid_not_expired (e : ShmEntry) (now : Nat)
    (hv : e.state = STATE_VALID) (hne : e.is_expired now = false) :
    e.is_alive now = true := by
  by_cases h0 : e.expires_at = 0
  · simp [ShmEntry.is_alive, ShmEntry.is_valid, hv, h0]
  · have : ¬ e.expires_at ≤ now := by
      simp [ShmEntry.is_expired, hv, STATE_VALID, STATE_EXPIRED, h0] at hne
      omega
    simp [ShmEntry.is_alive, ShmEntry.is_valid, hv, h0]
    omega

/-- C4: `poll` and `peek` first unlink the entire expired run at the front
(under the collection lock — the model is the lock-held sequential
execution), freeing each node and decrementing the header size once per
node, and only then return the payload of the first node, which is alive
(queue states only link Valid records), or report the queue empty. -/
theorem c4_queue_front_skip (q : FastQueueState) (now : Nat)
    (hsz : q.hsize = q.chain.length) (hlt : q.chain.length < U64)
    (hall : ∀ m ∈ q.chain, m.entry.state = STATE_VALID) :
    (FastQueue.skip_expired_front q now =
      ⟨q.chain.dropWhile (fun m => m.entry.is_expired now),
       q.hsize - (q.chain.takeWhile (fun m => m.entry.is_expired now)).length⟩) ∧
    (q.chain.dropWhile (fun m => m.entry.is_expired now) = [] →
      FastQueue.poll q now = (false, none, ⟨[], 0⟩) ∧
      FastQueue.peek q now = (false, none, ⟨[], 0⟩)) ∧
    (∀ n rest, q.chain.dropWhile (fun m => m.entry.is_expired now) = n :: rest →
      n.entry.is_alive now = true ∧
      FastQueue.poll q now =
        (true, some n.data,
         ⟨rest, q.hsize -
            ((q.chain.takeWhile (fun m => m.entry.is_expired now)).length + 1)⟩) ∧
      FastQueue.peek q now =
        (true, some n.data,
         ⟨n :: rest, q.hsize -
            (q.chain.takeWhile (fun m => m.entry.is_expired now)).length⟩)) := by
  have hskip : FastQueue.skip_expired_front q now =
      ⟨q.chain.dropWhile (fun m => m.entry.is_expired now),
       q.hsize - (q.chain.takeWhile (fun m => m.entry.is_expired now)).length⟩ := by
    unfold FastQueue.skip_expired_front
    rw [skipExpiredAux_eq q.chain q.hsize now hsz hlt]
  have hsplit := List.takeWhile_append_dropWhile
    (p := fun m => m.entry.is_expired now) (l := q.chain)
  refine ⟨hskip, ?_, ?_⟩
  · intro hdw
    have hk : (q.chain.takeWhile (fun m => m.entry.is_expired now)).length =
        q.chain.length := by
      have := congrArg List.length hsplit
      rw [hdw] at this
      simpa using this
    have h0 : q.hsize -
        (q.chain.takeWhile (fun m => m.entry.is_expired now)).length = 0 := by
      omega
    constructor
    · simp only [FastQueue.poll, hskip, hdw, h0]
    · simp only [FastQueue.peek, hskip, hdw, h0]
  · intro n rest hdw
    have hmem : n ∈ q.chain := by
      have hsub : List.Sublist
          (q.chain.dropWhile (fun m => m.entry.is_expired now)) q.chain :=
        List.dropWhile_sublist _
      exact hsub.subset (hdw ▸ List.mem_cons_self n rest)
    have hnx : n.entry.is_expired now = false := by
      have := List.head?_dropWhile_not (fun m => m.entry.is_expired now) q.chain
      rw [hdw] at this
      simpa using this
    have halive := alive_of_valid_not_expired n.entry now (hall n hmem) hnx
    have hklen : (q.chain.takeWhile (fun m => m.entry.is_expired now)).length +
        (rest.length + 1) = q.chain.length := by
      have := congrArg List.length hsplit
      rw [hdw] at this
      simp only [List.length_append, List.length_cons] at this
      omega
    have hsub1 : sub64one (q.hsize -
        (q.chain.takeWhile (fun m => m.entry.is_expired now)).length) =
        q.hsize -
          ((q.chain.takeWhile (fun m => m.entry.is_expired now)).length + 1) := by
      simp only [sub64one, U64] at *
      omega
    refine ⟨halive, ?_, ?_⟩
    · simp only [FastQueue.poll, hskip, hdw, halive, if_true, copy_from_node, hsub1]
    · simp only [FastQueue.peek, hskip, hdw, halive, if_true, copy_from_node]

/-- Witness for C4: a queue holding one expired node (bytes `[1]`, TTL 1 s
written at time 1) in front of one alive node (bytes `[2]`, infinite TTL),
polled at time `2·10^9`: the expired front is unlinked (size drops by
one), then the alive node is returned (size drops again). -/
theorem c4_queue_front_skip_witness :
    FastQueue.poll ⟨[copy_to_node [1] 1 1, copy_to_node [2] (-1) 1], 2⟩ 2000000000 =
      (true, some [2], ⟨[], 0⟩) := by
  have h := ((c4_queue_front_skip
      ⟨[copy_to_node [1] 1 1, copy_to_node [2] (-1) 1], 2⟩ 2000000000
      (by decide) (by decide) (by decide)).2.2 (copy_to_node [2] (-1) 1) []
      (by decide)).2.1
  exact h

/-! ## C3 -/

/-- On a chain of alive nodes the head-side traversal finds the node
`idx - live` steps ahead. -/
theorem natHeadAux_all_alive (chain : List ShmNode) (now idx : Nat) :
    ∀ live pos : Nat, (∀ m ∈ chain, m.entry.is_alive now = true) →
    natHeadAux chain now idx live pos =
      if live ≤ idx ∧ idx < live + chain.length then some (pos + (idx - live))
      else none := by
  induction chain with
  | nil =>
    intro live pos _
    rw [natHeadAux]
    rw [if_neg (by simp)]
  | cons m rest ih =>
    intro live pos hall
    have hm : m.entry.is_alive now = true := hall m (List.mem_cons_self _ _)
    rw [natHeadAux]
    simp only [hm, if_true]
    by_cases hl : live = idx
    · subst hl
      simp [List.length_cons]
    · have hne : (live == idx) = false := by simp [hl]
      rw [hne]
      simp only [Bool.false_eq_true, if_false]
      rw [ih (live + 1) (pos + 1) (fun m' hm' => hall m' (List.mem_cons_of_mem _ hm'))]
      simp only [List.length_cons]
      split_ifs with h1 h2 h2
      · congr 1
        omega
      · omega
      · omega
      · rfl

set_option maxRecDepth 4000 in
/-- On a chain of alive nodes the tail-side traversal finds the node
`live - idx` steps ahead, provided the wrapping counter starts at or above
the target and below `2^64`. -/
theorem natTailAux_all_alive (chain : List ShmNode) (now idx : Nat) :
    ∀ live pos : Nat, (∀ m ∈ chain, m.entry.is_alive now = true) →
    live < U64 → idx ≤ live →
    natTailAux chain now idx live pos =
      if live - idx < chain.length then some (pos + (live - idx)) else none := by
  induction chain with
  | nil =>
    intro live pos _ _ _
    rw [natTailAux]
    rw [if_neg (by simp)]
  | cons m rest ih =>
    intro live pos hall hlt hidx
    have hm : m.entry.is_alive now = true := hall m (List.mem_cons_self _ _)
    rw [natTailAux]
    simp only [hm, if_true]
    by_cases hl : live = idx
    · subst hl
      simp [List.length_cons]
    · have hne : (live == idx) = false := by simp [hl]
      rw [hne]
      simp only [Bool.false_eq_true, if_false]
      have h1 : 1 ≤ live := by omega
      have hlt2 : live < 18446744073709551616 := by
        have h := hlt
        simp only [U64] at h
        exact h
      have hsub : sub64one live = live - 1 := by
        simp only [sub64one, U64]
        omega
      rw [hsub, ih (live - 1) (pos + 1)
        (fun m' hm' => hall m' (List.mem_cons_of_mem _ hm'))
        (by omega) (by omega)]
      simp only [List.length_cons]
      split_ifs with h2 h3 h3
      · have he : pos + 1 + (live - 1 - idx) = pos + (live - idx) := by omega
        rw [he]
      · omega
      · omega
      · rfl

/-- On a chain of alive nodes the recount equals the chain length. -/
theorem chainAliveCount_all_alive (chain : List ShmNode) (now : Nat)
    (hall : ∀ m ∈ chain, m.entry.is_alive now = true) :
    chainAliveCount chain now = chain.length := by
  induction chain with
  | nil => rfl
  | cons m rest ih =>
    rw [chainAliveCount]
    rw [hall m (List.mem_cons_self _ _), ih (fun m' hm' => hall m' (List.mem_cons_of_mem _ hm'))]
    simp [Nat.add_comm]

/-- With only alive nodes linked and an accurate header size,
`node_at_index` finds the linked node at exactly the requested index, from
either traversal end. -/
theorem node_at_index_all_alive (s : FastListState) (now idx : Nat)
    (hsz : s.hsize = s.chain.length) (hlen : s.chain.length < U64)
    (hall : ∀ m ∈ s.chain, m.entry.is_alive now = true) (hidx : idx < s.hsize) :
    FastList.node_at_index s now idx = some idx := by
  rw [FastList.node_at_index]
  by_cases hhalf : idx < s.hsize / 2
  · rw [if_pos hhalf]
    rw [natHeadAux_all_alive s.chain now idx 0 0 hall]
    have hc0 : idx < s.chain.length := by omega
    simp [hc0]
  · rw [if_neg hhalf]
    have h1 : 1 ≤ s.hsize := by omega
    have hsub : sub64one s.hsize = s.hsize - 1 := by
      simp only [sub64one, U64] at *
      omega
    rw [hsub]
    rw [natTailAux_all_alive s.chain.reverse now idx (s.hsize - 1) 0
      (fun m' hm' => hall m' (List.mem_reverse.mp hm'))
      (by omega) (by omega)]
    have hc : s.hsize - 1 - idx < s.chain.reverse.length := by
      simp only [List.length_reverse]
      omega
    rw [if_pos hc]
    simp only [Option.some.injEq]
    omega

/-- C3 counterexample: a list whose chain still links one expired node has
visible size 0 but header size 1; positional insertion at index 1 — which
exceeds the visible size — succeeds (it appends at the tail) instead of
returning false as the claim requires. -/
theorem c3_visible_size_counterexample :
    FastList.size ⟨[⟨⟨STATE_VALID, 1, compute_hash [1], 1, 1, 1000000001, 0⟩, [1]⟩], 1⟩
      2000000000 = 0 ∧
    (FastList.addAt ⟨[⟨⟨STATE_VALID, 1, compute_hash [1], 1, 1, 1000000001, 0⟩, [1]⟩], 1⟩
      1 (some [3]) (-1) 2000000000).1 = true := by
  decide

/-- C3 (amended): positional insertion is bounded by the header's stored
size (the count of linked records, expired ones included), not the visible
size: `add(i, …)` fails exactly for `i >` that stored size, `i` equal to
it appends at the tail and `i = 0` prepends — both also when expired
nodes are linked; when no expired node is linked the stored size coincides
with the visible size and the claim's bound holds as stated. -/
theorem c3_addAt_header_size_bound (s : FastListState) (bs : List Nat) (idx : Nat)
    (ttl : Int) (now : Nat) (hbs : bs ≠ []) :
    (idx > s.hsize → FastList.addAt s idx (some bs) ttl now = (false, s)) ∧
    (idx = s.hsize → FastList.addAt s idx (some bs) ttl now =
        (true, ⟨s.chain ++ [copy_to_node bs ttl now], wrap64 (s.hsize + 1)⟩)) ∧
    (idx = 0 → 0 < s.hsize → FastList.addAt s idx (some bs) ttl now =
        (true, ⟨copy_to_node bs ttl now :: s.chain, wrap64 (s.hsize + 1)⟩)) ∧
    (s.hsize = s.chain.length → s.chain.length < U64 →
     (∀ m ∈ s.chain, m.entry.is_alive now = true) →
     ((FastList.addAt s idx (some bs) ttl now).1 = false ↔
        idx > FastList.size s now)) := by
  have hblen : ¬ bs.length = 0 := fun h => hbs (List.length_eq_zero.mp h)
  refine ⟨?_, ?_, ?_, ?_⟩
  · intro hgt
    simp [FastList.addAt, hblen, hgt]
  · intro heq
    subst heq
    simp [FastList.addAt, FastList.add, hblen]
  · intro h0 hpos
    subst h0
    have hne : ¬ (0 : Nat) = s.hsize := by omega
    simp [FastList.addAt, FastList.addFirst, hblen, hne, Nat.not_lt_of_lt hpos]
  · intro hsz hlen hall
    have hsize : FastList.size s now = s.hsize := by
      rw [FastList.size, chainAliveCount_all_alive s.chain now hall, hsz]
    rw [hsize]
    constructor
    · intro hfalse
      by_contra hle
      have hle' : idx ≤ s.hsize := by omega
      rcases Nat.lt_or_ge idx s.hsize with hlt | hge
      · by_cases h0 : idx = 0
        · subst h0
          have hne : ¬ (0 : Nat) = s.hsize := by omega
          simp [FastList.addAt, FastList.addFirst, hblen, hne,
            Nat.not_lt_of_lt hlt] at hfalse
        · have hnat := node_at_index_all_alive s now idx hsz hlen hall hlt
          have hne : ¬ idx = s.hsize := by omega
          simp [FastList.addAt, hblen, Nat.not_lt_of_lt hlt, hne, h0, hnat]
            at hfalse
      · have heq : idx = s.hsize := by omega
        subst heq
        simp [FastList.addAt, FastList.add, hblen] at hfalse
    · intro hgt
      simp [FastList.addAt, hblen, hgt]

/-- Witness for C3 (amended): on a list of one alive infinite-TTL node,
insertion at index 2 fails, insertion at index 1 (the header size)
appends, and insertion at index 0 prepends. -/
theorem c3_addAt_header_size_bound_witness :
    FastList.addAt ⟨[copy_to_node [9] (-1) 1], 1⟩ 2 (some [3]) (-1) 5 =
      (false, ⟨[copy_to_node [9] (-1) 1], 1⟩) ∧
    FastList.addAt ⟨[copy_to_node [9] (-1) 1], 1⟩ 1 (some [3]) (-1) 5 =
      (true, ⟨[copy_to_node [9] (-1) 1] ++ [copy_to_node [3] (-1) 5], wrap64 2⟩) ∧
    FastList.addAt ⟨[copy_to_node [9] (-1) 1], 1⟩ 0 (some [3]) (-1) 5 =
      (true, ⟨copy_to_node [3] (-1) 5 :: [copy_to_node [9] (-1) 1], wrap64 2⟩) :=
  ⟨(c3_addAt_header_size_bound ⟨[copy_to_node [9] (-1) 1], 1⟩ [3] 2 (-1) 5
      (by decide)).1 (by decide),
   (c3_addAt_header_size_bound ⟨[copy_to_node [9] (-1) 1], 1⟩ [3] 1 (-1) 5
      (by decide)).2.1 rfl,
   (c3_addAt_header_size_bound ⟨[copy_to_node [9] (-1) 1], 1⟩ [3] 0 (-1) 5
      (by decide)).2.2.1 rfl (by decide)⟩

end FastCollection
